import Mathlib

/-!
Shallow embedding of the offline-first synchronization engine of the
couples spend-tracking app: the last-write-wins merge (function
`mergeRecords` in `server.js`, identical to `Database.mergeRecords` in the
client database wrapper), the client database wrapper's soft-delete
operations, the sync orchestrator (`SyncService.sync` in
`public/js/sync.js`), the server sync routes, and the recurrence
generator (`SpendTrackApp.processRecurringTransactions`).

Modelling conventions:
* Timestamps are the `getTime()` values of the stored ISO strings,
  represented as `Int` epoch milliseconds, because every comparison in the
  source goes through `new Date(s).getTime()` (or an equivalent `Date`
  comparison).
* Calendar dates (`YYYY-MM-DD` strings in the source, compared
  lexicographically) are year/month/day triples ordered
  lexicographically, which agrees with the string order for four-digit
  years.
* A JavaScript `Map` is an insertion-ordered association list with unique
  keys; `Map.set` replaces the entry with the same key in place or
  appends a new entry at the end.
* `Math.random`-based UUID generation is modelled by an explicit id
  supply `Nat → String` together with a counter, so that distinct random
  draws are distinct supplies.
-/

namespace SpendTrack

/-- A synchronized record's envelope (section "Record Model").
`createdAt`/`updatedAt` are epoch milliseconds; `payload` stands for the
kind-specific fields, which the merge treats opaquely (whole-record
replacement). -/
structure Record where
  id : String
  createdAt : Int
  updatedAt : Int
  deletedAt : Option Int
  payload : String
  deriving DecidableEq

/-- `Map.get` on a map represented as its insertion-ordered entry list. -/
def lookupId : List Record → String → Option Record
  | [], _ => none
  | r :: rs, i => if r.id = i then some r else lookupId rs i

/-- `Map.set`: replace the entry carrying the same key in place, else
append at the end. -/
def setRecord : List Record → Record → List Record
  | [], r => [r]
  | x :: xs, r => if x.id = r.id then r :: xs else x :: setRecord xs r

/-- One iteration of the incoming-record loop of `mergeRecords`
(server.js lines 349-364): insert an unseen id unconditionally; for an id
already in the baseline map, replace the entry only when the incoming
record's `updatedAt` is strictly greater. -/
def lwwStep (m : List Record) (c : Record) : List Record :=
  match lookupId m c.id with
  | none => setRecord m c
  | some s => if s.updatedAt < c.updatedAt then setRecord m c else m

/-- `mergeRecords` (server.js lines 340-367; the client-side
`Database.mergeRecords` has the identical body with the local store as
baseline): index the baseline collection by id, fold the remote records
through the last-write-wins step, and return the map's values in
insertion order. -/
def mergeRecords (baseline remote : List Record) : List Record :=
  remote.foldl lwwStep (baseline.foldl setRecord [])

/-- Per-id meaning of one last-write-wins comparison (specification
helper, not itself source code). -/
def mergeOne (o : Option Record) (c : Record) : Option Record :=
  match o with
  | none => some c
  | some s => some (if s.updatedAt < c.updatedAt then c else s)

/-- All records of a collection carrying a given id, in order
(specification helper). -/
def selectId : List Record → String → List Record
  | [], _ => []
  | c :: cs, i => if c.id = i then c :: selectId cs i else selectId cs i

/-- The id column of a collection (specification helper). -/
def ids (rs : List Record) : List String :=
  rs.map Record.id

/-- An entry of the client sync queue (`Database.addToSyncQueue`): the
IndexedDB `syncQueue` store is append-only thanks to its auto-increment
key. -/
structure QueueEntry where
  type : String
  data : Record
  timestamp : Int
  deriving DecidableEq

/-- The client-side IndexedDB stores managed by the `Database` class. -/
structure ClientDB where
  transactions : List Record
  categories : List Record
  recurring : List Record
  syncQueue : List QueueEntry
  deriving DecidableEq

/-- `Database.deleteTransaction`: get by id; when found, stamp
`deletedAt`/`updatedAt`, put the record back and append to the sync
queue; when absent, do nothing and return `undefined` (here `none`). -/
def deleteTransaction (now : Int) (db : ClientDB) (i : String) :
    ClientDB × Option Record :=
  match lookupId db.transactions i with
  | none => (db, none)
  | some tx =>
    let tx' := { tx with deletedAt := some now, updatedAt := now }
    ({ db with transactions := setRecord db.transactions tx',
               syncQueue := db.syncQueue ++ [⟨"transaction", tx', now⟩] },
     some tx')

/-- `Database.deleteCategory` (same shape as `deleteTransaction`). -/
def deleteCategory (now : Int) (db : ClientDB) (i : String) :
    ClientDB × Option Record :=
  match lookupId db.categories i with
  | none => (db, none)
  | some cat =>
    let cat' := { cat with deletedAt := some now, updatedAt := now }
    ({ db with categories := setRecord db.categories cat',
               syncQueue := db.syncQueue ++ [⟨"category", cat', now⟩] },
     some cat')

/-- `Database.deleteRecurring` (same shape as `deleteTransaction`). -/
def deleteRecurring (now : Int) (db : ClientDB) (i : String) :
    ClientDB × Option Record :=
  match lookupId db.recurring i with
  | none => (db, none)
  | some rec' =>
    let rec'' := { rec' with deletedAt := some now, updatedAt := now }
    ({ db with recurring := setRecord db.recurring rec'',
               syncQueue := db.syncQueue ++ [⟨"recurring", rec'', now⟩] },
     some rec'')

/-- Outcome of a server REST route. -/
inductive ApiResult where
  | ok (r : Record)
  | notFound
  deriving DecidableEq

/-- Server route `DELETE /api/transactions/:id` (server.js lines
155-168): soft-delete the record when present, else respond 404
Not Found. The category and recurring delete routes are identical. -/
def serverDeleteTransaction (now : Int) (store : List Record) (i : String) :
    List Record × ApiResult :=
  match lookupId store i with
  | none => (store, ApiResult.notFound)
  | some t =>
    let t' := { t with deletedAt := some now, updatedAt := now }
    (setRecord store t', ApiResult.ok t')

/-- A JSON value, for stating what is (and is not) on the wire. -/
inductive Json where
  | jnull
  | jnum (n : Int)
  | jstr (s : String)
  | jarr (items : List Json)
  | jobj (fields : List (String × Json))

/-- Field lookup in a JSON object's field list. -/
def jLookup : List (String × Json) → String → Option Json
  | [], _ => none
  | p :: ps, k => if p.1 = k then some p.2 else jLookup ps k

/-- JavaScript property access `v[k]` on a parsed JSON value: a field of
an object, `undefined` (here `none`) otherwise. -/
def jGet (v : Json) (k : String) : Option Json :=
  match v with
  | Json.jobj fs => jLookup fs k
  | _ => none

/-- Serialization of a record for the wire. -/
def Record.toJson (r : Record) : Json :=
  Json.jobj [("id", Json.jstr r.id), ("createdAt", Json.jnum r.createdAt),
    ("updatedAt", Json.jnum r.updatedAt),
    ("deletedAt", match r.deletedAt with
      | none => Json.jnull
      | some t => Json.jnum t),
    ("payload", Json.jstr r.payload)]

/-- Server route `POST /api/transactions/sync` (server.js lines 111-120):
merge the client's records into the stored file, persist the merged
collection, and respond with `res.json(merged)` - the bare merged array
and nothing else. Returns (new store contents, response body). -/
def transactionsSyncRoute (serverStore clientBody : List Record) :
    List Record × Json :=
  let merged := mergeRecords serverStore clientBody
  (merged, Json.jarr (merged.map Record.toJson))

/-- Server route `POST /api/categories/sync` (server.js lines 176-184),
same body as the transactions route. -/
def categoriesSyncRoute (serverStore clientBody : List Record) :
    List Record × Json :=
  let merged := mergeRecords serverStore clientBody
  (merged, Json.jarr (merged.map Record.toJson))

/-- Server route `POST /api/recurring/sync` (server.js lines 249-257),
same body as the transactions route. -/
def recurringSyncRoute (serverStore clientBody : List Record) :
    List Record × Json :=
  let merged := mergeRecords serverStore clientBody
  (merged, Json.jarr (merged.map Record.toJson))

/-- The zero counts the client substitutes when the response has no
`stats` field (`sync.js` line 133). -/
def defaultTxStats : Json :=
  Json.jobj [("added", Json.jnum 0), ("updated", Json.jnum 0),
    ("conflicted", Json.jnum 0)]

/-- `SyncService.syncTransactions` reading the counts from the response:
`const stats = data.stats || {added: 0, updated: 0, conflicted: 0}`.
A missing or null `stats` property falls back to the zero counts. -/
def statsOf (data : Json) : Json :=
  match jGet data "stats" with
  | some Json.jnull => defaultTxStats
  | some s => s
  | none => defaultTxStats

/-- The three synchronized entity kinds. -/
inductive Kind where
  | transaction
  | category
  | recurring
  deriving DecidableEq

/-- State of one client replica's `SyncService` together with the
authoritative stores it talks to.  `events` is the trace of kind
exchanges started, in order; network failure of an exchange is modelled
by the oracle passed to `sync`. -/
structure SyncState where
  isOnline : Bool
  isSyncing : Bool
  client : ClientDB
  serverTx : List Record
  serverCat : List Record
  serverRec : List Record
  events : List Kind
  deriving DecidableEq

/-- `SyncService.syncTransactions` (sync.js lines 119-144): send the full
local collection including tombstones; the server merges it into its
store (the transactions sync route) and answers with the merged
collection; the client then merges the response into its own store
(`Database.mergeTransactions`, baseline = local).  A thrown fetch error
propagates (`Except.error`) with no store change. -/
def syncTransactionsStep (fail : Kind → Bool) (s : SyncState) :
    Except SyncState SyncState :=
  let s1 := { s with events := s.events ++ [Kind.transaction] }
  if fail Kind.transaction then Except.error s1
  else
    let serverMerged := mergeRecords s1.serverTx s1.client.transactions
    let localMerged := mergeRecords s1.client.transactions serverMerged
    Except.ok { s1 with
      serverTx := serverMerged,
      client := { s1.client with transactions := localMerged } }

/-- `SyncService.syncCategories` (sync.js lines 146-169). -/
def syncCategoriesStep (fail : Kind → Bool) (s : SyncState) :
    Except SyncState SyncState :=
  let s1 := { s with events := s.events ++ [Kind.category] }
  if fail Kind.category then Except.error s1
  else
    let serverMerged := mergeRecords s1.serverCat s1.client.categories
    let localMerged := mergeRecords s1.client.categories serverMerged
    Except.ok { s1 with
      serverCat := serverMerged,
      client := { s1.client with categories := localMerged } }

/-- `SyncService.syncRecurring` (sync.js lines 171-194). -/
def syncRecurringStep (fail : Kind → Bool) (s : SyncState) :
    Except SyncState SyncState :=
  let s1 := { s with events := s.events ++ [Kind.recurring] }
  if fail Kind.recurring then Except.error s1
  else
    let serverMerged := mergeRecords s1.serverRec s1.client.recurring
    let localMerged := mergeRecords s1.client.recurring serverMerged
    Except.ok { s1 with
      serverRec := serverMerged,
      client := { s1.client with recurring := localMerged } }

/-- The tail of `SyncService.sync`: the `catch` block swallows the
thrown error and the `finally` block clears the busy flag in both the
success and the failure outcome. -/
def finishRound (r : Except SyncState SyncState) : SyncState :=
  match r with
  | Except.ok s2 => { s2 with isSyncing := false }
  | Except.error s2 => { s2 with isSyncing := false }

/-- `SyncService.sync` (sync.js lines 52-93): no-op when offline or when
a round is already in flight; otherwise set the busy flag, run the three
kind exchanges in the source's order, clear the sync queue after all
succeed, and clear the busy flag whether the round succeeded or an
exchange threw. -/
def sync (fail : Kind → Bool) (s : SyncState) : SyncState :=
  if !s.isOnline || s.isSyncing then s
  else
    let s1 := { s with isSyncing := true }
    finishRound
      ((syncTransactionsStep fail s1).bind fun a =>
        (syncCategoriesStep fail a).bind fun b =>
          (syncRecurringStep fail b).map fun c =>
            { c with client := { c.client with syncQueue := [] } })

/-- A calendar date, the meaning of a `YYYY-MM-DD` string. -/
structure CalDate where
  y : Nat
  m : Nat
  d : Nat
  deriving DecidableEq

/-- The source's `nextDate <= today` comparison is lexicographic string
order on `YYYY-MM-DD`, which for four-digit years is exactly
lexicographic order on (year, month, day). -/
def CalDate.le (a b : CalDate) : Bool :=
  if a.y = b.y then
    (if a.m = b.m then decide (a.d ≤ b.d) else decide (a.m < b.m))
  else decide (a.y < b.y)

/-- Gregorian leap year, as used by JavaScript `Date`. -/
def isLeap (y : Nat) : Bool :=
  decide (y % 4 = 0) && (decide (y % 100 ≠ 0) || decide (y % 400 = 0))

def daysInMonth (y m : Nat) : Nat :=
  if m = 2 then (if isLeap y then 29 else 28)
  else if m = 4 ∨ m = 6 ∨ m = 9 ∨ m = 11 then 30
  else 31

/-- JavaScript `Date` field normalization for the out-of-range fields
`getNextRecurringDate` can produce (month up to 13 after `setMonth`, day
up to 45 after `setDate`): roll an overflowing month into the next year,
then roll an overflowing day into the next month.  One day roll suffices
because the day excess is at most 45 - 28 = 17 < 28. -/
def mkDate (y m d : Nat) : CalDate :=
  let y' := if 12 < m then y + 1 else y
  let m' := if 12 < m then m - 12 else m
  if daysInMonth y' m' < d then
    let d' := d - daysInMonth y' m'
    if m' = 12 then ⟨y' + 1, 1, d'⟩ else ⟨y', m' + 1, d'⟩
  else ⟨y', m', d⟩

/-- Frequency enum of a recurring rule. -/
inductive Frequency where
  | weekly
  | biweekly
  | monthly
  | yearly
  deriving DecidableEq

/-- `SpendTrackApp.getNextRecurringDate`: parse the date at local noon,
advance by the rule's frequency using `Date` arithmetic (weekly +7 days,
biweekly +14 days, monthly +1 month, yearly +1 year, each with standard
calendar normalization of overflow), and format the date back. -/
def getNextRecurringDate (dte : CalDate) (f : Frequency) : CalDate :=
  match f with
  | Frequency.weekly => mkDate dte.y dte.m (dte.d + 7)
  | Frequency.biweekly => mkDate dte.y dte.m (dte.d + 14)
  | Frequency.monthly => mkDate dte.y (dte.m + 1) dte.d
  | Frequency.yearly => mkDate (dte.y + 1) dte.m dte.d

/-- A recurring rule as held in `SpendTrackApp.recurring`. -/
structure Rule where
  id : String
  person : String
  category : String
  vendor : String
  amount : Int
  frequency : Frequency
  startDate : CalDate
  memo : String
  lastGenerated : Option CalDate
  createdAt : Int
  updatedAt : Int
  deletedAt : Option Int
  deriving DecidableEq

/-- A transaction as held in `SpendTrackApp.transactions`. -/
structure GenTx where
  id : String
  date : CalDate
  person : String
  category : String
  vendor : String
  amount : Int
  memo : String
  recurringId : Option String
  createdAt : Int
  updatedAt : Int
  updatedBy : String
  deletedAt : Option Int
  deriving DecidableEq

/-- The transaction object built inside `processRecurringTransactions`:
`id: generateUUID()` (drawn from the id supply `u` at counter `ctr`),
memo falling back to `Recurring: vendor` when the rule's memo is empty. -/
def mkGenTx (u : Nat → String) (ctr : Nat) (now : Int) (r : Rule)
    (dte : CalDate) : GenTx :=
  { id := u ctr, date := dte, person := r.person, category := r.category,
    vendor := r.vendor, amount := r.amount,
    memo := if r.memo = "" then "Recurring: " ++ r.vendor else r.memo,
    recurringId := some r.id, createdAt := now, updatedAt := now,
    updatedBy := "System", deletedAt := none }

/-- `this.transactions.some(tx => tx.recurringId === rec.id && tx.date
=== nextDate)` - the duplicate check of the generator. -/
def hasPair : List GenTx → String → CalDate → Bool
  | [], _, _ => false
  | t :: ts, rid, dte =>
    decide (t.recurringId = some rid ∧ t.date = dte) || hasPair ts rid dte

/-- Number of transactions for a given (recurringId, date) pair
(specification helper). -/
def countPair : List GenTx → String → CalDate → Nat
  | [], _, _ => 0
  | t :: ts, rid, dte =>
    (if t.recurringId = some rid ∧ t.date = dte then 1 else 0)
      + countPair ts rid dte

/-- The `while (nextDate <= today)` loop of
`processRecurringTransactions`, one rule at a time: emit a transaction
for the cursor date unless one already exists for (rule id, cursor),
record the cursor as `lastGenerated`, and advance the cursor by the
rule's frequency.  `fuel` bounds the number of loop iterations; `none`
means the bound was hit before the loop exited. -/
def genLoop : Nat → (Nat → String) → Int → Rule → CalDate → List GenTx →
    Nat → Option CalDate → CalDate → Option (List GenTx × Nat × Option CalDate)
  | 0, _, _, _, _, _, _, _, _ => none
  | fuel + 1, u, now, r, today, txs, ctr, lg, cursor =>
    if CalDate.le cursor today then
      if hasPair txs r.id cursor then
        genLoop fuel u now r today txs ctr (some cursor)
          (getNextRecurringDate cursor r.frequency)
      else
        genLoop fuel u now r today (txs ++ [mkGenTx u ctr now r cursor])
          (ctr + 1) (some cursor) (getNextRecurringDate cursor r.frequency)
    else some (txs, ctr, lg)

/-- The loop's starting cursor: `rec.lastGenerated ?
getNextRecurringDate(rec.lastGenerated, rec.frequency) : rec.startDate`. -/
def cursorOf (r : Rule) : CalDate :=
  match r.lastGenerated with
  | some lg => getNextRecurringDate lg r.frequency
  | none => r.startDate

/-- The per-rule iteration of `processRecurringTransactions`: tombstoned
rules are skipped entirely; otherwise the generation loop runs and the
rule is saved back with the new `lastGenerated` watermark and a fresh
`updatedAt`. -/
def processAll (fuel : Nat) (u : Nat → String) (now : Int) (today : CalDate) :
    List Rule → List GenTx → Nat → Option (List GenTx × List Rule × Nat)
  | [], txs, ctr => some (txs, [], ctr)
  | r :: rs, txs, ctr =>
    if r.deletedAt.isSome then
      match processAll fuel u now today rs txs ctr with
      | none => none
      | some (t, rr, c) => some (t, r :: rr, c)
    else
      match genLoop fuel u now r today txs ctr r.lastGenerated (cursorOf r) with
      | none => none
      | some (txs', ctr', lg') =>
        match processAll fuel u now today rs txs' ctr' with
        | none => none
        | some (t, rr, c) =>
          some (t, { r with lastGenerated := lg', updatedAt := now } :: rr, c)

/-- `SpendTrackApp.processRecurringTransactions` over the app's in-memory
state: the rule list and the transaction list, returning their new
values (mirrored client-database writes are not modelled separately). -/
def processRecurringTransactions (fuel : Nat) (u : Nat → String) (now : Int)
    (today : CalDate) (rules : List Rule) (txs : List GenTx) :
    Option (List GenTx × List Rule) :=
  (processAll fuel u now today rules txs 0).map (fun p => (p.1, p.2.1))

/-- What a completed run does to a rule besides the watermark: refresh
`updatedAt` on every non-tombstoned rule (specification helper). -/
def touchRule (now : Int) (r : Rule) : Rule :=
  if r.deletedAt.isSome then r else { r with updatedAt := now }

/-- Concrete data for witnesses. -/
def wRecA : Record :=
  ⟨"r1", 0, 10, none, "baseline version"⟩

def wRecB : Record :=
  ⟨"r1", 3, 12, none, "remote version"⟩

def wRecC : Record :=
  ⟨"t2", 0, 5, none, "only in baseline"⟩

def wRecD : Record :=
  ⟨"t3", 0, 6, none, "only in remote"⟩

def wTomb : Record :=
  ⟨"g1", 0, 5, some 5, "tombstone"⟩

def wStale : Record :=
  ⟨"g1", 0, 3, none, "stale live copy"⟩

def wRule : Rule :=
  ⟨"rec-1", "James", "Subscription", "Netflix", 15, Frequency.weekly,
    ⟨2024, 1, 1⟩, "", none, 0, 0, none⟩

def wToday : CalDate :=
  ⟨2024, 1, 22⟩

def wTodayC9 : CalDate :=
  ⟨2024, 1, 1⟩

def wU : Nat → String :=
  fun _ => "gen"

def wUA : Nat → String :=
  fun _ => "id-a"

def wUB : Nat → String :=
  fun _ => "id-b"

/-- Result of a completed first generation run (for the C8 witness). -/
def wRun : List GenTx × List Rule :=
  (processRecurringTransactions 10 wU 0 wToday [wRule] []).getD ([], [])

/-- A pre-existing generated transaction for (rec-1, 2024-01-01). -/
def wSeed : GenTx :=
  mkGenTx wUA 0 0 wRule wTodayC9

/-- A run started with `wSeed` already present (for the C9 witness). -/
def wRun2 : List GenTx × List Rule :=
  (processRecurringTransactions 10 wUB 5 wToday [wRule] [wSeed]).getD ([], [])

def emptyDB : ClientDB :=
  ⟨[], [], [], []⟩

def s0 : SyncState :=
  ⟨true, false, ⟨[], [], [], []⟩, [], [], [], []⟩

def sBusy : SyncState :=
  ⟨true, true, ⟨[], [], [], []⟩, [], [], [], []⟩

def noFail : Kind → Bool :=
  fun _ => false

/-! Lemmas about the map operations underlying `mergeRecords`. -/

theorem ids_cons (x : Record) (xs : List Record) :
    ids (x :: xs) = x.id :: ids xs :=
  rfl

theorem lookupId_setRecord (m : List Record) (r : Record) (i : String) :
    lookupId (setRecord m r) i = if r.id = i then some r else lookupId m i := by
  induction m with
  | nil => simp [setRecord, lookupId]
  | cons x xs ih =>
    by_cases hx : x.id = r.id
    · by_cases hi : r.id = i
      · simp [setRecord, hx, lookupId, hi]
      · simp [setRecord, hx, lookupId, hi]
    · by_cases hxi : x.id = i
      · have hri : ¬ r.id = i := fun h => hx (hxi.trans h.symm)
        have hir : ¬ i = r.id := fun h => hri h.symm
        simp [setRecord, hx, lookupId, hxi, hri, hir]
      · simp [setRecord, hx, lookupId, hxi, ih]

theorem lookupId_lwwStep (m : List Record) (c : Record) (i : String) :
    lookupId (lwwStep m c) i
      = if c.id = i then mergeOne (lookupId m c.id) c else lookupId m i := by
  cases h : lookupId m c.id with
  | none =>
    simp only [lwwStep, h]
    rw [lookupId_setRecord]
    by_cases hi : c.id = i
    · simp [hi, mergeOne]
    · simp [hi]
  | some s =>
    simp only [lwwStep, h]
    by_cases hlt : s.updatedAt < c.updatedAt
    · rw [if_pos hlt, lookupId_setRecord]
      by_cases hi : c.id = i
      · simp [hi, mergeOne, hlt]
      · simp [hi]
    · rw [if_neg hlt]
      by_cases hi : c.id = i
      · rw [if_pos hi, ← hi, h]
        simp [mergeOne, hlt]
      · rw [if_neg hi]

theorem lookupId_foldl_lww (B : List Record) :
    ∀ (m : List Record) (i : String),
      lookupId (B.foldl lwwStep m) i
        = (selectId B i).foldl mergeOne (lookupId m i) := by
  induction B with
  | nil => intro m i; rfl
  | cons c B ih =>
    intro m i
    show lookupId (B.foldl lwwStep (lwwStep m c)) i = _
    rw [ih]
    by_cases hi : c.id = i
    · have e : selectId (c :: B) i = c :: selectId B i := by
        simp only [selectId]
        rw [if_pos hi]
      rw [lookupId_lwwStep, if_pos hi, hi, e, List.foldl_cons]
    · have e : selectId (c :: B) i = selectId B i := by
        simp only [selectId]
        rw [if_neg hi]
      rw [lookupId_lwwStep, if_neg hi, e]

theorem setRecord_append (m : List Record) (r : Record)
    (h : ∀ x ∈ m, x.id ≠ r.id) : setRecord m r = m ++ [r] := by
  induction m with
  | nil => rfl
  | cons x xs ih =>
    have hx : ¬ x.id = r.id := h x (by simp)
    simp [setRecord, hx, ih (fun z hz => h z (by simp [hz]))]

theorem lookupId_eq_none_iff (m : List Record) (i : String) :
    lookupId m i = none ↔ ∀ x ∈ m, x.id ≠ i := by
  induction m with
  | nil => simp [lookupId]
  | cons x xs ih =>
    by_cases hx : x.id = i
    · simp [lookupId, hx]
    · simp [lookupId, hx, ih]

theorem mem_ids (rs : List Record) (j : String) :
    j ∈ ids rs ↔ ∃ x ∈ rs, x.id = j := by
  simp [ids]

theorem foldl_setRecord_of_disjoint (A : List Record) :
    ∀ m, (∀ a ∈ A, ∀ x ∈ m, x.id ≠ a.id) → (ids A).Nodup →
      A.foldl setRecord m = m ++ A := by
  induction A with
  | nil => intro m _ _; simp
  | cons a A ih =>
    intro m hdisj hnd
    rw [ids_cons, List.nodup_cons] at hnd
    obtain ⟨hmem, hnd'⟩ := hnd
    have h1 : setRecord m a = m ++ [a] :=
      setRecord_append m a (fun x hx => hdisj a (by simp) x hx)
    have hdisj' : ∀ a' ∈ A, ∀ x ∈ m ++ [a], x.id ≠ a'.id := by
      intro a' ha' x hx
      rcases List.mem_append.mp hx with hxm | hxa
      · exact hdisj a' (by simp [ha']) x hxm
      · have hxe : x = a := by simpa using hxa
        subst hxe
        intro hcontra
        exact hmem ((mem_ids A x.id).mpr ⟨a', ha', hcontra.symm⟩)
    show A.foldl setRecord (setRecord m a) = m ++ a :: A
    rw [h1, ih (m ++ [a]) hdisj' hnd']
    simp

theorem buildMap_self (A : List Record) (h : (ids A).Nodup) :
    A.foldl setRecord [] = A := by
  have := foldl_setRecord_of_disjoint A [] (by simp) h
  simpa using this

theorem foldl_lww_of_disjoint (B : List Record) :
    ∀ m, (∀ b ∈ B, ∀ x ∈ m, x.id ≠ b.id) → (ids B).Nodup →
      B.foldl lwwStep m = m ++ B := by
  induction B with
  | nil => intro m _ _; simp
  | cons b B ih =>
    intro m hdisj hnd
    rw [ids_cons, List.nodup_cons] at hnd
    obtain ⟨hmem, hnd'⟩ := hnd
    have hnone : lookupId m b.id = none :=
      (lookupId_eq_none_iff m b.id).mpr (fun x hx => hdisj b (by simp) x hx)
    have h1 : lwwStep m b = m ++ [b] := by
      simp only [lwwStep, hnone]
      exact setRecord_append m b (fun x hx => hdisj b (by simp) x hx)
    have hdisj' : ∀ b' ∈ B, ∀ x ∈ m ++ [b], x.id ≠ b'.id := by
      intro b' hb' x hx
      rcases List.mem_append.mp hx with hxm | hxb
      · exact hdisj b' (by simp [hb']) x hxm
      · have hxe : x = b := by simpa using hxb
        subst hxe
        intro hcontra
        exact hmem ((mem_ids B x.id).mpr ⟨b', hb', hcontra.symm⟩)
    show B.foldl lwwStep (lwwStep m b) = m ++ b :: B
    rw [h1, ih (m ++ [b]) hdisj' hnd']
    simp

theorem selectId_eq_nil_iff (B : List Record) (i : String) :
    selectId B i = [] ↔ lookupId B i = none := by
  induction B with
  | nil => simp [selectId, lookupId]
  | cons c cs ih =>
    by_cases hc : c.id = i
    · simp [selectId, lookupId, hc]
    · simp [selectId, lookupId, hc, ih]

theorem selectId_of_nodup (B : List Record) (i : String) (b : Record)
    (hn : (ids B).Nodup) (h : lookupId B i = some b) : selectId B i = [b] := by
  induction B with
  | nil => simp [lookupId] at h
  | cons x xs ih =>
    rw [ids_cons, List.nodup_cons] at hn
    obtain ⟨hmem, hn'⟩ := hn
    by_cases hx : x.id = i
    · have hb : x = b := by simpa [lookupId, hx] using h
      subst hb
      have hnone : lookupId xs i = none := by
        rw [lookupId_eq_none_iff]
        intro z hz hzi
        exact hmem ((mem_ids xs x.id).mpr ⟨z, hz, hzi.trans hx.symm⟩)
      simp [selectId, hx, (selectId_eq_nil_iff xs i).mpr hnone]
    · have h' : lookupId xs i = some b := by simpa [lookupId, hx] using h
      simp [selectId, hx, ih hn' h']

theorem foldl_mergeOne_some (cs : List Record) :
    ∀ s : Record, ∃ w, cs.foldl mergeOne (some s) = some w
      ∧ (w = s ∨ s.updatedAt < w.updatedAt) := by
  induction cs with
  | nil => intro s; exact ⟨s, rfl, Or.inl rfl⟩
  | cons c cs ih =>
    intro s
    show ∃ w, cs.foldl mergeOne (mergeOne (some s) c) = some w ∧ _
    by_cases hlt : s.updatedAt < c.updatedAt
    · obtain ⟨w, hw, hd⟩ := ih c
      refine ⟨w, by simpa [mergeOne, hlt] using hw, ?_⟩
      rcases hd with rfl | hlt'
      · exact Or.inr hlt
      · exact Or.inr (lt_trans hlt hlt')
    · obtain ⟨w, hw, hd⟩ := ih s
      exact ⟨w, by simpa [mergeOne, hlt] using hw, hd⟩

theorem foldl_mergeOne_eq_none (cs : List Record) (o : Option Record)
    (h : cs.foldl mergeOne o = none) : o = none ∧ cs = [] := by
  cases cs with
  | nil => exact ⟨h, rfl⟩
  | cons c cs =>
    exfalso
    cases o with
    | none =>
      obtain ⟨w, hw, _⟩ := foldl_mergeOne_some cs c
      have : (c :: cs).foldl mergeOne none = some w := by
        simpa [mergeOne] using hw
      rw [h] at this
      exact Option.noConfusion this
    | some s =>
      by_cases hlt : s.updatedAt < c.updatedAt
      · obtain ⟨w, hw, _⟩ := foldl_mergeOne_some cs c
        have : (c :: cs).foldl mergeOne (some s) = some w := by
          simpa [mergeOne, hlt] using hw
        rw [h] at this
        exact Option.noConfusion this
      · obtain ⟨w, hw, _⟩ := foldl_mergeOne_some cs s
        have : (c :: cs).foldl mergeOne (some s) = some w := by
          simpa [mergeOne, hlt] using hw
        rw [h] at this
        exact Option.noConfusion this

theorem mem_ids_setRecord (m : List Record) (r : Record) (j : String) :
    j ∈ ids (setRecord m r) ↔ j ∈ ids m ∨ j = r.id := by
  induction m with
  | nil => simp [setRecord, ids]
  | cons x xs ih =>
    by_cases hx : x.id = r.id
    · have e : setRecord (x :: xs) r = r :: xs := by
        simp only [setRecord]
        rw [if_pos hx]
      rw [e, ids_cons, ids_cons]
      simp only [List.mem_cons, hx]
      tauto
    · have e : setRecord (x :: xs) r = x :: setRecord xs r := by
        simp only [setRecord]
        rw [if_neg hx]
      rw [e, ids_cons, ids_cons]
      simp only [List.mem_cons, ih]
      tauto

theorem ids_nodup_setRecord (m : List Record) (r : Record)
    (h : (ids m).Nodup) : (ids (setRecord m r)).Nodup := by
  induction m with
  | nil => simp [setRecord, ids]
  | cons x xs ih =>
    rw [ids_cons, List.nodup_cons] at h
    obtain ⟨hx', hxs⟩ := h
    by_cases hx : x.id = r.id
    · rw [setRecord, if_pos hx, ids_cons, List.nodup_cons]
      exact ⟨hx ▸ hx', hxs⟩
    · rw [setRecord, if_neg hx, ids_cons, List.nodup_cons]
      refine ⟨?_, ih hxs⟩
      intro hc
      rcases (mem_ids_setRecord xs r x.id).mp hc with hm | he
      · exact hx' hm
      · exact hx he

theorem ids_nodup_lwwStep (m : List Record) (c : Record)
    (h : (ids m).Nodup) : (ids (lwwStep m c)).Nodup := by
  cases hl : lookupId m c.id with
  | none =>
    simp only [lwwStep, hl]
    exact ids_nodup_setRecord m c h
  | some s =>
    simp only [lwwStep, hl]
    by_cases hlt : s.updatedAt < c.updatedAt
    · rw [if_pos hlt]; exact ids_nodup_setRecord m c h
    · rw [if_neg hlt]; exact h

theorem ids_nodup_foldl_setRecord (A : List Record) :
    ∀ m, (ids m).Nodup → (ids (A.foldl setRecord m)).Nodup := by
  induction A with
  | nil => intro m h; exact h
  | cons a A ih =>
    intro m h
    exact ih (setRecord m a) (ids_nodup_setRecord m a h)

theorem ids_nodup_foldl_lww (B : List Record) :
    ∀ m, (ids m).Nodup → (ids (B.foldl lwwStep m)).Nodup := by
  induction B with
  | nil => intro m h; exact h
  | cons b B ih =>
    intro m h
    exact ih (lwwStep m b) (ids_nodup_lwwStep m b h)

theorem ids_nodup_mergeRecords (A B : List Record) :
    (ids (mergeRecords A B)).Nodup := by
  exact ids_nodup_foldl_lww B (A.foldl setRecord [])
    (ids_nodup_foldl_setRecord A [] (by simp [ids]))

/-- The per-id law of `mergeRecords` for an id present on both sides
(shared helper). -/
theorem lookupId_mergeRecords (A B : List Record) (i : String) (a b : Record)
    (hA : (ids A).Nodup) (hB : (ids B).Nodup)
    (ha : lookupId A i = some a) (hb : lookupId B i = some b) :
    lookupId (mergeRecords A B) i
      = some (if a.updatedAt < b.updatedAt then b else a) := by
  show lookupId (B.foldl lwwStep (A.foldl setRecord [])) i = _
  rw [lookupId_foldl_lww, buildMap_self A hA, ha, selectId_of_nodup B i b hB hb]
  simp [mergeOne]

/-- Claim C1: for id-keyed baseline and remote collections and an id
present in both, the merge replaces the baseline entry with the whole
remote record exactly when the remote `updatedAt` is strictly greater,
and keeps the baseline record unchanged when it is equal or less (ties
resolve to the baseline side). -/
theorem mergeRecords_lastWriteWins (A B : List Record) (i : String)
    (a b : Record) (hA : (ids A).Nodup) (hB : (ids B).Nodup)
    (ha : lookupId A i = some a) (hb : lookupId B i = some b) :
    lookupId (mergeRecords A B) i
      = some (if a.updatedAt < b.updatedAt then b else a) :=
  lookupId_mergeRecords A B i a b hA hB ha hb

theorem mergeRecords_lastWriteWins_witness :
    lookupId (mergeRecords [wRecA] [wRecB]) "r1"
      = some (if wRecA.updatedAt < wRecB.updatedAt then wRecB else wRecA) :=
  mergeRecords_lastWriteWins [wRecA] [wRecB] "r1" wRecA wRecB
    (by decide) (by decide) (by decide) (by decide)

/-- Claim C2: over id-keyed inputs, the merged output's id set is the
union of the input id sets (no id dropped), and for inputs with disjoint
id sets the output has exactly the sum of the input sizes. -/
theorem mergeRecords_id_union (A B : List Record)
    (hA : (ids A).Nodup) (hB : (ids B).Nodup) :
    (∀ i, (lookupId (mergeRecords A B) i).isSome
        ↔ ((lookupId A i).isSome ∨ (lookupId B i).isSome))
    ∧ ((∀ a ∈ A, ∀ b ∈ B, a.id ≠ b.id) →
        (mergeRecords A B).length = A.length + B.length) := by
  constructor
  · intro i
    have key : lookupId (mergeRecords A B) i
        = (selectId B i).foldl mergeOne (lookupId A i) := by
      show lookupId (B.foldl lwwStep (A.foldl setRecord [])) i = _
      rw [lookupId_foldl_lww, buildMap_self A hA]
    rw [key]
    cases hA' : lookupId A i with
    | none =>
      cases hS : selectId B i with
      | nil =>
        have : lookupId B i = none := (selectId_eq_nil_iff B i).mp hS
        simp [this]
      | cons c cs =>
        obtain ⟨w, hw, _⟩ := foldl_mergeOne_some cs c
        have hfold : (c :: cs).foldl mergeOne none = some w := by
          simpa [mergeOne] using hw
        have hBi : lookupId B i ≠ none := by
          intro hcon
          rw [← selectId_eq_nil_iff] at hcon
          rw [hS] at hcon
          exact List.noConfusion hcon
        simp [hfold, Option.isSome_iff_ne_none, hBi]
    | some a =>
      obtain ⟨w, hw, _⟩ := foldl_mergeOne_some (selectId B i) a
      simp [hw]
  · intro hdisj
    have hd : ∀ b ∈ B, ∀ x ∈ A, x.id ≠ b.id :=
      fun b hb x hx => hdisj x hx b hb
    show (B.foldl lwwStep (A.foldl setRecord [])).length = _
    rw [buildMap_self A hA, foldl_lww_of_disjoint B A hd hB,
      List.length_append]

theorem mergeRecords_id_union_witness :
    ((lookupId (mergeRecords [wRecC] [wRecD]) "t2").isSome
        ↔ ((lookupId [wRecC] "t2").isSome ∨ (lookupId [wRecD] "t2").isSome))
    ∧ (mergeRecords [wRecC] [wRecD]).length = [wRecC].length + [wRecD].length :=
  ⟨(mergeRecords_id_union [wRecC] [wRecD] (by decide) (by decide)).1 "t2",
   (mergeRecords_id_union [wRecC] [wRecD] (by decide) (by decide)).2 (by decide)⟩

/-- Claim C3: a tombstoned record whose `updatedAt` is strictly greater
than the other side's copy of the same id survives the merge still
tombstoned, whether the tombstone sits on the baseline or on the remote
side. -/
theorem mergeRecords_tombstone_permanence (A B : List Record) (i : String)
    (a b : Record) (hA : (ids A).Nodup) (hB : (ids B).Nodup)
    (ha : lookupId A i = some a) (hdel : a.deletedAt ≠ none)
    (hb : lookupId B i = some b) (hlt : b.updatedAt < a.updatedAt) :
    (∃ m, lookupId (mergeRecords A B) i = some m ∧ m.deletedAt ≠ none)
    ∧ (∃ m, lookupId (mergeRecords B A) i = some m ∧ m.deletedAt ≠ none) := by
  refine ⟨⟨a, ?_, hdel⟩, ⟨a, ?_, hdel⟩⟩
  · rw [lookupId_mergeRecords A B i a b hA hB ha hb,
      if_neg (lt_asymm hlt)]
  · rw [lookupId_mergeRecords B A i b a hB hA hb ha, if_pos hlt]

theorem mergeRecords_tombstone_permanence_witness :
    (∃ m, lookupId (mergeRecords [wTomb] [wStale]) "g1" = some m
        ∧ m.deletedAt ≠ none)
    ∧ (∃ m, lookupId (mergeRecords [wStale] [wTomb]) "g1" = some m
        ∧ m.deletedAt ≠ none) :=
  mergeRecords_tombstone_permanence [wTomb] [wStale] "g1" wTomb wStale
    (by decide) (by decide) (by decide) (by decide) (by decide) (by decide)

/-- Claim C4: the merge is idempotent in its remote argument - merging
an already-merged snapshot back in changes nothing, as a per-id
mapping. -/
theorem mergeRecords_idem (X Y : List Record) (i : String) :
    lookupId (mergeRecords X (mergeRecords X Y)) i
      = lookupId (mergeRecords X Y) i := by
  have hM : (ids (mergeRecords X Y)).Nodup := ids_nodup_mergeRecords X Y
  have e1 : lookupId (mergeRecords X (mergeRecords X Y)) i
      = (selectId (mergeRecords X Y) i).foldl mergeOne
          (lookupId (X.foldl setRecord []) i) :=
    lookupId_foldl_lww (mergeRecords X Y) (X.foldl setRecord []) i
  have e2 : lookupId (mergeRecords X Y) i
      = (selectId Y i).foldl mergeOne (lookupId (X.foldl setRecord []) i) :=
    lookupId_foldl_lww Y (X.foldl setRecord []) i
  rw [e1]
  cases hw : lookupId (mergeRecords X Y) i with
  | none =>
    have hnil : selectId (mergeRecords X Y) i = [] :=
      (selectId_eq_nil_iff _ _).mpr hw
    rw [hnil]
    have h0 : (selectId Y i).foldl mergeOne
        (lookupId (X.foldl setRecord []) i) = none := by
      rw [← e2]; exact hw
    obtain ⟨h1, _⟩ := foldl_mergeOne_eq_none (selectId Y i) _ h0
    simpa using h1
  | some w =>
    have hsel : selectId (mergeRecords X Y) i = [w] :=
      selectId_of_nodup _ i w hM hw
    rw [hsel]
    cases hbm : lookupId (X.foldl setRecord []) i with
    | none => simp [mergeOne]
    | some s =>
      obtain ⟨w', hw', hd⟩ := foldl_mergeOne_some (selectId Y i) s
      have hww : w' = w := by
        rw [hbm] at e2
        rw [hw] at e2
        rw [hw'] at e2
        exact (Option.some_inj.mp e2).symm
      subst hww
      rcases hd with rfl | hlt
      · simp [mergeOne, lt_irrefl]
      · simp [mergeOne, hlt]

/-- Claim C5, counterexample: the transactions sync route's response at a
concrete exchange is the bare merged array; it is not an object and
carries neither an `added` field nor a `stats` object, so the claimed
`added`/`updated` (and `conflicted`) counts are absent from the
authoritative side's response. -/
theorem syncRoute_no_counts_counterexample :
    (transactionsSyncRoute [] []).2 = Json.jarr []
    ∧ jGet (transactionsSyncRoute [] []).2 "stats" = none
    ∧ jGet (transactionsSyncRoute [] []).2 "added" = none
    ∧ jGet (transactionsSyncRoute [] []).2 "updated" = none :=
  ⟨rfl, rfl, rfl, rfl⟩

/-- Claim C5 as amended: for every sync exchange of every kind, the
authoritative side persists the merged collection and responds with only
that full merged collection (including tombstones) as a bare JSON array;
no `added`/`updated`/`conflicted` counts are sent, and the client-side
stats extraction therefore falls back to the all-zero counts. -/
theorem syncRoute_bare_array (serverStore clientBody : List Record) :
    (transactionsSyncRoute serverStore clientBody).1
        = mergeRecords serverStore clientBody
    ∧ (transactionsSyncRoute serverStore clientBody).2
        = Json.jarr ((mergeRecords serverStore clientBody).map Record.toJson)
    ∧ statsOf (transactionsSyncRoute serverStore clientBody).2 = defaultTxStats
    ∧ (categoriesSyncRoute serverStore clientBody).2
        = Json.jarr ((mergeRecords serverStore clientBody).map Record.toJson)
    ∧ statsOf (categoriesSyncRoute serverStore clientBody).2 = defaultTxStats
    ∧ (recurringSyncRoute serverStore clientBody).2
        = Json.jarr ((mergeRecords serverStore clientBody).map Record.toJson)
    ∧ statsOf (recurringSyncRoute serverStore clientBody).2 = defaultTxStats :=
  ⟨rfl, rfl, rfl, rfl, rfl, rfl, rfl⟩

/-- Claim C10: for an id with no matching record in the client store,
the client-side soft deletes (`deleteTransaction`, `deleteCategory`,
`deleteRecurring`) are silent no-ops - the stores and the sync queue are
untouched and `none` (JavaScript `undefined`) is returned - whereas the
server-side delete route answers 404 Not Found. -/
theorem clientDelete_missing_noop (now : Int) (db : ClientDB)
    (store : List Record) (i : String)
    (ht : lookupId db.transactions i = none)
    (hc : lookupId db.categories i = none)
    (hr : lookupId db.recurring i = none)
    (hs : lookupId store i = none) :
    deleteTransaction now db i = (db, none)
    ∧ deleteCategory now db i = (db, none)
    ∧ deleteRecurring now db i = (db, none)
    ∧ serverDeleteTransaction now store i = (store, ApiResult.notFound) := by
  refine ⟨?_, ?_, ?_, ?_⟩
  · simp only [deleteTransaction, ht]
  · simp only [deleteCategory, hc]
  · simp only [deleteRecurring, hr]
  · simp only [serverDeleteTransaction, hs]

theorem clientDelete_missing_noop_witness :
    deleteTransaction 5 emptyDB "missing-id" = (emptyDB, none)
    ∧ deleteCategory 5 emptyDB "missing-id" = (emptyDB, none)
    ∧ deleteRecurring 5 emptyDB "missing-id" = (emptyDB, none)
    ∧ serverDeleteTransaction 5 [] "missing-id" = ([], ApiResult.notFound) :=
  clientDelete_missing_noop 5 emptyDB [] "missing-id" rfl rfl rfl rfl

/-- Claim C6, counterexample: a round started from an idle online state
exchanges the kinds in the order Transaction, Category, RecurringRule -
the transaction exchange happens first, so the claimed
Category-before-Transaction order is false. -/
theorem sync_order_counterexample :
    (sync noFail s0).events = [Kind.transaction, Kind.category, Kind.recurring]
    ∧ [Kind.transaction, Kind.category, Kind.recurring]
        ≠ [Kind.category, Kind.transaction, Kind.recurring] := by
  exact ⟨rfl, by decide⟩

/-- Claim C6 as amended: every round that runs (online, not already
syncing, all exchanges succeeding) processes the kinds in the order
Transaction first, then Category, then RecurringRule. -/
theorem sync_order_transactions_first (fail : Kind → Bool) (s : SyncState)
    (hfail : ∀ k, fail k = false) (hon : s.isOnline = true)
    (hbusy : s.isSyncing = false) :
    (sync fail s).events
      = s.events ++ [Kind.transaction, Kind.category, Kind.recurring] := by
  simp [sync, finishRound, syncTransactionsStep, syncCategoriesStep,
    syncRecurringStep, hon, hbusy, hfail, Except.bind, Except.map]

theorem sync_order_transactions_first_witness :
    (sync noFail s0).events
      = s0.events ++ [Kind.transaction, Kind.category, Kind.recurring] :=
  sync_order_transactions_first noFail s0 (fun _ => rfl) rfl rfl

/-- Claim C7: when a round is already in flight the busy flag makes
`sync()` a no-op that leaves the whole state (stores, queue, event
trace) untouched, and after any call starting from a non-busy state the
flag is clear again, whether the round's exchanges succeeded or threw. -/
theorem sync_busy_guard (fail : Kind → Bool) (s : SyncState) :
    (s.isSyncing = true → sync fail s = s)
    ∧ (s.isSyncing = false → (sync fail s).isSyncing = false) := by
  have hfin : ∀ r, (finishRound r).isSyncing = false := by
    intro r
    cases r <;> rfl
  constructor
  · intro h
    simp [sync, h]
  · intro h
    cases hon : s.isOnline with
    | false => simp [sync, hon, h]
    | true => simp [sync, hon, h, hfin]

theorem sync_busy_guard_witness :
    sync noFail sBusy = sBusy ∧ (sync noFail s0).isSyncing = false :=
  ⟨(sync_busy_guard noFail sBusy).1 rfl, (sync_busy_guard noFail s0).2 rfl⟩

/-! Lemmas about the recurrence generator. -/

theorem genLoop_post (fuel : Nat) :
    ∀ (u : Nat → String) (now : Int) (r : Rule) (today : CalDate)
      (txs : List GenTx) (ctr : Nat) (lg : Option CalDate) (cursor : CalDate)
      (txs' : List GenTx) (ctr' : Nat) (lg' : Option CalDate),
      genLoop fuel u now r today txs ctr lg cursor = some (txs', ctr', lg') →
      (txs' = txs ∧ ctr' = ctr ∧ lg' = lg ∧ CalDate.le cursor today = false)
      ∨ (∃ c, lg' = some c ∧ CalDate.le c today = true
          ∧ CalDate.le (getNextRecurringDate c r.frequency) today = false) := by
  induction fuel with
  | zero =>
    intro u now r today txs ctr lg cursor txs' ctr' lg' h
    simp [genLoop] at h
  | succ n ih =>
    intro u now r today txs ctr lg cursor txs' ctr' lg' h
    simp only [genLoop] at h
    cases hcur : CalDate.le cursor today with
    | false =>
      simp [hcur] at h
      obtain ⟨h1, h2, h3⟩ := h
      exact Or.inl ⟨h1.symm, h2.symm, h3.symm, rfl⟩
    | true =>
      cases hex : hasPair txs r.id cursor with
      | true =>
        simp [hcur, hex] at h
        rcases ih u now r today txs ctr (some cursor)
            (getNextRecurringDate cursor r.frequency) txs' ctr' lg' h with
          ⟨_, _, h3, h4⟩ | ⟨c, hc1, hc2, hc3⟩
        · exact Or.inr ⟨cursor, h3, hcur, h4⟩
        · exact Or.inr ⟨c, hc1, hc2, hc3⟩
      | false =>
        simp [hcur, hex] at h
        rcases ih u now r today (txs ++ [mkGenTx u ctr now r cursor]) (ctr + 1)
            (some cursor) (getNextRecurringDate cursor r.frequency)
            txs' ctr' lg' h with
          ⟨_, _, h3, h4⟩ | ⟨c, hc1, hc2, hc3⟩
        · exact Or.inr ⟨cursor, h3, hcur, h4⟩
        · exact Or.inr ⟨c, hc1, hc2, hc3⟩

theorem genLoop_exit (fuel : Nat) (u : Nat → String) (now : Int) (r : Rule)
    (today : CalDate) (txs : List GenTx) (ctr : Nat) (lg : Option CalDate)
    (cursor : CalDate) (hf : 0 < fuel) (h : CalDate.le cursor today = false) :
    genLoop fuel u now r today txs ctr lg cursor = some (txs, ctr, lg) := by
  cases fuel with
  | zero => exact absurd hf (by simp)
  | succ n => simp [genLoop, h]

theorem processAll_post (rules : List Rule) :
    ∀ (fuel : Nat) (u : Nat → String) (now : Int) (today : CalDate)
      (txs : List GenTx) (ctr : Nat) (txs' : List GenTx) (rules' : List Rule)
      (ctr' : Nat),
      processAll fuel u now today rules txs ctr = some (txs', rules', ctr') →
      ∀ r' ∈ rules', r'.deletedAt.isSome = true
        ∨ CalDate.le (cursorOf r') today = false := by
  induction rules with
  | nil =>
    intro fuel u now today txs ctr txs' rules' ctr' h r' hr'
    simp only [processAll, Option.some.injEq, Prod.mk.injEq] at h
    obtain ⟨_, h2, _⟩ := h
    rw [← h2] at hr'
    simp at hr'
  | cons r rs ih =>
    intro fuel u now today txs ctr txs' rules' ctr' h r' hr'
    simp only [processAll] at h
    by_cases hdel : r.deletedAt.isSome
    · rw [if_pos hdel] at h
      split at h
      · exact absurd h (by simp)
      · rename_i t rr c hrec
        simp only [Option.some.injEq, Prod.mk.injEq] at h
        obtain ⟨_, h2, _⟩ := h
        rw [← h2] at hr'
        rcases List.mem_cons.mp hr' with heq | hmem
        · subst heq
          exact Or.inl hdel
        · exact ih fuel u now today txs ctr t rr c hrec r' hmem
    · rw [if_neg hdel] at h
      split at h
      · exact absurd h (by simp)
      · rename_i txs₂ ctr₂ lg₂ hloop
        split at h
        · exact absurd h (by simp)
        · rename_i t rr c hrec
          simp only [Option.some.injEq, Prod.mk.injEq] at h
          obtain ⟨_, h2, _⟩ := h
          rw [← h2] at hr'
          rcases List.mem_cons.mp hr' with heq | hmem
          · subst heq
            rcases genLoop_post fuel u now r today txs ctr r.lastGenerated
                (cursorOf r) txs₂ ctr₂ lg₂ hloop with
              ⟨_, _, h3, h4⟩ | ⟨c', hc1, _, hc3⟩
            · refine Or.inr ?_
              have e : cursorOf { r with lastGenerated := lg₂, updatedAt := now }
                  = cursorOf r := by
                rw [h3]
                rfl
              rw [e]
              exact h4
            · refine Or.inr ?_
              have e : cursorOf { r with lastGenerated := lg₂, updatedAt := now }
                  = getNextRecurringDate c' r.frequency := by
                rw [hc1]
                rfl
              rw [e]
              exact hc3
          · exact ih fuel u now today txs₂ ctr₂ t rr c hrec r' hmem

theorem processAll_second (rules : List Rule) :
    ∀ (fuel : Nat) (u : Nat → String) (now : Int) (today : CalDate)
      (txs : List GenTx) (ctr : Nat), 0 < fuel →
      (∀ r ∈ rules, r.deletedAt.isSome = true
        ∨ CalDate.le (cursorOf r) today = false) →
      processAll fuel u now today rules txs ctr
        = some (txs, rules.map (touchRule now), ctr) := by
  induction rules with
  | nil =>
    intro fuel u now today txs ctr _ _
    simp [processAll]
  | cons r rs ih =>
    intro fuel u now today txs ctr hf hpost
    simp only [processAll]
    by_cases hdel : r.deletedAt.isSome
    · rw [if_pos hdel,
        ih fuel u now today txs ctr hf (fun z hz => hpost z (by simp [hz]))]
      simp [touchRule, hdel]
    · rw [if_neg hdel]
      have hcur : CalDate.le (cursorOf r) today = false := by
        rcases hpost r (by simp) with h | h
        · exact absurd h hdel
        · exact h
      rw [genLoop_exit fuel u now r today txs ctr r.lastGenerated (cursorOf r)
        hf hcur]
      have hih := ih fuel u now today txs ctr hf (fun z hz => hpost z (by simp [hz]))
      simp [hih, touchRule, hdel]

theorem map_touchRule_lastGenerated (now : Int) (rules : List Rule) :
    (rules.map (touchRule now)).map Rule.lastGenerated
      = rules.map Rule.lastGenerated := by
  induction rules with
  | nil => rfl
  | cons r rs ih =>
    have e : (touchRule now r).lastGenerated = r.lastGenerated := by
      by_cases hdel : r.deletedAt.isSome
      · simp [touchRule, hdel]
      · simp [touchRule, hdel]
    simp [e, ih]

/-- Claim C8: re-running the recurrence generator right after a completed
run, with the same rules and the same `today`, emits no transaction at
all (so in particular no duplicate for any (rule, date) pair) and leaves
every rule's `lastGenerated` watermark exactly where the first run left
it; this holds for any fresh id supply and clock of the second run. -/
theorem processRecurring_idempotent (fuel fuel₂ : Nat) (u u₂ : Nat → String)
    (now now₂ : Int) (today : CalDate) (rules : List Rule)
    (txs txs₁ : List GenTx) (rules₁ : List Rule)
    (h : processRecurringTransactions fuel u now today rules txs
      = some (txs₁, rules₁))
    (hf : 0 < fuel₂) :
    ∃ rules₂,
      processRecurringTransactions fuel₂ u₂ now₂ today rules₁ txs₁
        = some (txs₁, rules₂)
      ∧ rules₂.map Rule.lastGenerated = rules₁.map Rule.lastGenerated := by
  unfold processRecurringTransactions at h
  cases hall : processAll fuel u now today rules txs 0 with
  | none => rw [hall] at h; exact absurd h (by simp)
  | some trip =>
    obtain ⟨t, rr, c⟩ := trip
    rw [hall] at h
    simp only [Option.map_some', Option.some.injEq, Prod.mk.injEq] at h
    obtain ⟨h1, h2⟩ := h
    subst h1
    subst h2
    have hpost := processAll_post rules fuel u now today txs 0 t rr c hall
    refine ⟨rr.map (touchRule now₂), ?_, map_touchRule_lastGenerated now₂ rr⟩
    unfold processRecurringTransactions
    rw [processAll_second rr fuel₂ u₂ now₂ today t 0 hf hpost]
    rfl

theorem processRecurring_idempotent_witness :
    ∃ rules₂,
      processRecurringTransactions 1 wU 99 wToday wRun.2 wRun.1
        = some (wRun.1, rules₂)
      ∧ rules₂.map Rule.lastGenerated = wRun.2.map Rule.lastGenerated :=
  processRecurring_idempotent 10 1 wU wU 0 99 wToday [wRule] [] wRun.1 wRun.2
    rfl (by decide)

/-- Claim C9, counterexample: two generation runs from identical state
that differ only in the random UUID draw emit, for the same rule
`rec-1` and the same date 2024-01-01, transactions with different ids -
the emitted id is `generateUUID()`, not a deterministic function of
(ruleId, date). -/
theorem generated_id_not_deterministic :
    (processRecurringTransactions 2 wUA 0 wTodayC9 [wRule] []).map
        (fun p => p.1.map (fun t => (t.id, t.recurringId, t.date)))
      = some [("id-a", some "rec-1", wTodayC9)]
    ∧ (processRecurringTransactions 2 wUB 0 wTodayC9 [wRule] []).map
        (fun p => p.1.map (fun t => (t.id, t.recurringId, t.date)))
      = some [("id-b", some "rec-1", wTodayC9)]
    ∧ ("id-a" : String) ≠ "id-b" :=
  ⟨rfl, rfl, by decide⟩

theorem countPair_append (txs : List GenTx) (t : GenTx) (rid : String)
    (dte : CalDate) :
    countPair (txs ++ [t]) rid dte
      = countPair txs rid dte
        + (if t.recurringId = some rid ∧ t.date = dte then 1 else 0) := by
  induction txs with
  | nil => simp [countPair]
  | cons x xs ih => simp [countPair, ih, Nat.add_assoc]

theorem hasPair_false_count (txs : List GenTx) (rid : String) (dte : CalDate)
    (h : hasPair txs rid dte = false) : countPair txs rid dte = 0 := by
  induction txs with
  | nil => rfl
  | cons x xs ih =>
    simp only [hasPair, Bool.or_eq_false_iff, decide_eq_false_iff_not] at h
    obtain ⟨h1, h2⟩ := h
    simp [countPair, h1, ih h2]

theorem genLoop_countPair (rid : String) (dte : CalDate) (fuel : Nat) :
    ∀ (u : Nat → String) (now : Int) (r : Rule) (today : CalDate)
      (txs : List GenTx) (ctr : Nat) (lg : Option CalDate) (cursor : CalDate)
      (txs' : List GenTx) (ctr' : Nat) (lg' : Option CalDate),
      0 < countPair txs rid dte →
      genLoop fuel u now r today txs ctr lg cursor = some (txs', ctr', lg') →
      countPair txs' rid dte = countPair txs rid dte := by
  induction fuel with
  | zero =>
    intro u now r today txs ctr lg cursor txs' ctr' lg' _ h
    simp [genLoop] at h
  | succ n ih =>
    intro u now r today txs ctr lg cursor txs' ctr' lg' hpos h
    simp only [genLoop] at h
    cases hcur : CalDate.le cursor today with
    | false =>
      simp [hcur] at h
      obtain ⟨h1, _, _⟩ := h
      rw [← h1]
    | true =>
      cases hex : hasPair txs r.id cursor with
      | true =>
        simp [hcur, hex] at h
        exact ih u now r today txs ctr (some cursor)
          (getNextRecurringDate cursor r.frequency) txs' ctr' lg' hpos h
      | false =>
        simp [hcur, hex] at h
        have hstep : countPair (txs ++ [mkGenTx u ctr now r cursor]) rid dte
            = countPair txs rid dte := by
          rw [countPair_append]
          by_cases hp : (mkGenTx u ctr now r cursor).recurringId = some rid
              ∧ (mkGenTx u ctr now r cursor).date = dte
          · exfalso
            have hr1 : r.id = rid := by
              have := hp.1
              simpa [mkGenTx] using this
            have hd1 : cursor = dte := by
              have := hp.2
              simpa [mkGenTx] using this
            rw [hr1, hd1] at hex
            have := hasPair_false_count txs rid dte hex
            omega
          · simp [hp]
        have hpos2 : 0 < countPair (txs ++ [mkGenTx u ctr now r cursor]) rid dte := by
          rw [hstep]; exact hpos
        have e := ih u now r today (txs ++ [mkGenTx u ctr now r cursor]) (ctr + 1)
          (some cursor) (getNextRecurringDate cursor r.frequency)
          txs' ctr' lg' hpos2 h
        rw [e, hstep]

theorem processAll_countPair (rid : String) (dte : CalDate) (rules : List Rule) :
    ∀ (fuel : Nat) (u : Nat → String) (now : Int) (today : CalDate)
      (txs : List GenTx) (ctr : Nat) (txs' : List GenTx) (rules' : List Rule)
      (ctr' : Nat),
      0 < countPair txs rid dte →
      processAll fuel u now today rules txs ctr = some (txs', rules', ctr') →
      countPair txs' rid dte = countPair txs rid dte := by
  induction rules with
  | nil =>
    intro fuel u now today txs ctr txs' rules' ctr' _ h
    simp only [processAll, Option.some.injEq, Prod.mk.injEq] at h
    obtain ⟨h1, _, _⟩ := h
    rw [← h1]
  | cons r rs ih =>
    intro fuel u now today txs ctr txs' rules' ctr' hpos h
    simp only [processAll] at h
    by_cases hdel : r.deletedAt.isSome
    · rw [if_pos hdel] at h
      split at h
      · exact absurd h (by simp)
      · rename_i t rr c hrec
        simp only [Option.some.injEq, Prod.mk.injEq] at h
        obtain ⟨h1, _, _⟩ := h
        rw [← h1]
        exact ih fuel u now today txs ctr t rr c hpos hrec
    · rw [if_neg hdel] at h
      split at h
      · exact absurd h (by simp)
      · rename_i txs₂ ctr₂ lg₂ hloop
        split at h
        · exact absurd h (by simp)
        · rename_i t rr c hrec
          simp only [Option.some.injEq, Prod.mk.injEq] at h
          obtain ⟨h1, _, _⟩ := h
          have e1 := genLoop_countPair rid dte fuel u now r today txs ctr
            r.lastGenerated (cursorOf r) txs₂ ctr₂ lg₂ hpos hloop
          have hpos2 : 0 < countPair txs₂ rid dte := by rw [e1]; exact hpos
          have e2 := ih fuel u now today txs₂ ctr₂ t rr c hpos2 hrec
          rw [← h1, e2, e1]

/-- Claim C9 as amended: the generator's emitted ids come from the fresh
UUID supply rather than from (ruleId, date); regeneration is prevented
not by deterministic ids but by the existence check - once any
transaction for a (recurringId, date) pair is present, a generation run
adds no further transaction for that pair. -/
theorem generated_no_duplicate_pairs (fuel : Nat) (u : Nat → String)
    (now : Int) (today : CalDate) (rules : List Rule) (txs txs₁ : List GenTx)
    (rules₁ : List Rule) (rid : String) (dte : CalDate)
    (h : processRecurringTransactions fuel u now today rules txs
      = some (txs₁, rules₁))
    (hpos : 0 < countPair txs rid dte) :
    countPair txs₁ rid dte = countPair txs rid dte := by
  unfold processRecurringTransactions at h
  cases hall : processAll fuel u now today rules txs 0 with
  | none => rw [hall] at h; exact absurd h (by simp)
  | some trip =>
    obtain ⟨t, rr, c⟩ := trip
    rw [hall] at h
    simp only [Option.map_some', Option.some.injEq, Prod.mk.injEq] at h
    obtain ⟨h1, _⟩ := h
    rw [← h1]
    exact processAll_countPair rid dte rules fuel u now today txs 0 t rr c
      hpos hall

theorem generated_no_duplicate_pairs_witness :
    countPair wRun2.1 "rec-1" wTodayC9 = countPair [wSeed] "rec-1" wTodayC9 :=
  generated_no_duplicate_pairs 10 wUB 5 wToday [wRule] [wSeed] wRun2.1 wRun2.2
    "rec-1" wTodayC9 rfl (by decide)

end SpendTrack
